import Mathlib

/-!
Verification of the auto-capture redaction and annotation pipeline
(`auto_capture/redact.py`, `auto_capture/annotate.py`).

The Python source is embedded shallowly: pure functions become Lean
functions over `List Char`, `ℤ` and `ℚ`; Python's `int()` conversion on a
float is modelled as truncation toward zero on `ℚ`; external collaborators
(the Vision OCR engine, the `re` regex engine, PIL image files) are
parameters of the functions that call them, with the loop structure,
guards and arithmetic taken from the source.
-/

namespace AutoCapture

/-! ## Python primitives -/

/-- Python's `int()` applied to a real number: truncation toward zero. -/
def pyInt (q : ℚ) : ℤ := if 0 ≤ q then ⌊q⌋ else ⌈q⌉

theorem pyInt_nonneg {q : ℚ} (h : 0 ≤ q) : 0 ≤ pyInt q := by
  simp only [pyInt, if_pos h]
  exact Int.floor_nonneg.mpr h

theorem pyInt_le_of_le {q : ℚ} {n : ℤ} (h : q ≤ (n : ℚ)) :
    pyInt q ≤ n := by
  unfold pyInt
  split
  · calc ⌊q⌋ ≤ ⌊(n : ℚ)⌋ := Int.floor_le_floor h
      _ = n := Int.floor_intCast n
  · calc ⌈q⌉ ≤ ⌈(n : ℚ)⌉ := Int.ceil_le_ceil h
      _ = n := Int.ceil_intCast n

/-! ## `redact.py`: `_mask_text` -/

/-- `_mask_text` from `redact.py`, on the string's character list:
texts of length at most 4 become `"****"`; longer texts keep
`visible = max(2, len // 8)` characters at each end, asterisks between. -/
def mask_text (text : List Char) : List Char :=
  if text.length ≤ 4 then ['*', '*', '*', '*']
  else
    let visible := max 2 (text.length / 8)
    text.take visible
      ++ List.replicate (text.length - visible * 2) '*'
      ++ text.drop (text.length - visible)

/-- `_mask_text` on a `String`, as stored in a `SensitiveRegion`. -/
def mask_text_str (s : String) : String := String.mk (mask_text s.data)

/-! ## `redact.py`: `luhn_check` -/

/-- The digit values of a string, in order: `[int(d) for d in num_str if d.isdigit()]`. -/
def digitsOf (s : List Char) : List ℕ :=
  (s.filter Char.isDigit).map fun c => c.toNat - '0'.toNat

/-- One step of the Luhn loop body: a digit at odd index (in the reversed
list) is doubled, and 9 is subtracted when the doubled value exceeds 9. -/
def luhn_step (i d : ℕ) : ℕ :=
  if i % 2 = 1 then (if d * 2 > 9 then d * 2 - 9 else d * 2) else d

/-- `luhn_check` from `redact.py`: extract digits, reject lengths outside
13–19, then sum the Luhn-adjusted reversed digits and test mod 10. -/
def luhn_check (s : List Char) : Bool :=
  let digits := digitsOf s
  if digits.length < 13 || decide (digits.length > 19) then false
  else
    decide
      ((((digits.reverse.enum).map fun p => luhn_step p.1 p.2).sum) % 10 = 0)

/-- The Luhn sum as the specification words it, on the already-reversed
digit sequence: keep the digit at index 0, double the digit at index 1
(subtracting 9 from a doubled value exceeding 9), and so on in pairs. -/
def luhnSpecSum : List ℕ → ℕ
  | [] => 0
  | [d] => d
  | d :: e :: rest => d + (if 2 * e > 9 then 2 * e - 9 else 2 * e) + luhnSpecSum rest

/-- The indexed Luhn sum starting at index `n`. -/
def luhnSumFrom (n : ℕ) (ds : List ℕ) : ℕ :=
  ((List.enumFrom n ds).map fun p => luhn_step p.1 p.2).sum

theorem luhnSumFrom_eq_spec :
    ∀ (ds : List ℕ) (n : ℕ), n % 2 = 0 → luhnSumFrom n ds = luhnSpecSum ds
  | [], _, _ => by simp [luhnSumFrom, luhnSpecSum]
  | [d], n, h => by
      have hn : ¬ n % 2 = 1 := by omega
      simp [luhnSumFrom, luhnSpecSum, luhn_step, hn]
  | d :: e :: rest, n, h => by
      have hn : ¬ n % 2 = 1 := by omega
      have hn1 : (n + 1) % 2 = 1 := by omega
      have ih := luhnSumFrom_eq_spec rest (n + 2) (by omega)
      simp only [luhnSumFrom, List.enumFrom, List.map_cons, List.sum_cons,
        luhn_step, hn, if_false, hn1, if_true] at *
      rw [ih]
      simp [luhnSpecSum, Nat.mul_comm]
      omega

/-- Claim C1: `luhn_check` returns `false` whenever the string holds fewer
than 13 or more than 19 digit characters, and otherwise returns `true`
exactly when the reversed digit sequence, with every second digit doubled
(9 subtracted from doubled values exceeding 9), sums to a multiple of 10. -/
theorem luhn_check_correct (s : List Char) :
    luhn_check s = true ↔
      13 ≤ (digitsOf s).length ∧ (digitsOf s).length ≤ 19 ∧
        luhnSpecSum (digitsOf s).reverse % 10 = 0 := by
  unfold luhn_check
  have he : (digitsOf s).reverse.enum = List.enumFrom 0 (digitsOf s).reverse := rfl
  by_cases hlen :
      ((digitsOf s).length < 13 || decide ((digitsOf s).length > 19)) = true
  · rw [if_pos hlen]
    constructor
    · intro hfalse; exact absurd hfalse (by simp)
    · rintro ⟨h1, h2, _⟩
      simp only [Bool.or_eq_true, decide_eq_true_eq] at hlen
      omega
  · rw [if_neg hlen]
    simp only [Bool.or_eq_true, decide_eq_true_eq, not_or, Nat.not_lt] at hlen
    rw [decide_eq_true_eq, he]
    have hsumeq := luhnSumFrom_eq_spec (digitsOf s).reverse 0 rfl
    unfold luhnSumFrom at hsumeq
    rw [hsumeq]
    constructor
    · intro hsum
      exact ⟨hlen.1, by omega, hsum⟩
    · rintro ⟨_, _, hsum⟩; exact hsum

/-- Claim C10: `luhn_check` only looks at the digit characters — deleting
every non-digit character from the input never changes the result. -/
theorem luhn_check_filter_digits (s : List Char) :
    luhn_check (s.filter Char.isDigit) = luhn_check s := by
  have hd : digitsOf (s.filter Char.isDigit) = digitsOf s := by
    unfold digitsOf
    rw [List.filter_filter]
    simp
  unfold luhn_check
  rw [hd]

/-- Claim C5: `_mask_text` maps every text of length at most 4 to the fixed
placeholder `"****"`; every text of length at least 5 maps to a string of
the same length that keeps a prefix and a suffix of at least 2 input
characters with only asterisks (at least one) between them. -/
theorem mask_text_correct (text : List Char) :
    if text.length ≤ 4 then mask_text text = ['*', '*', '*', '*']
    else
      (mask_text text).length = text.length ∧
      ∃ p m s_suf : List Char,
        mask_text text = p ++ m ++ s_suf ∧
        2 ≤ p.length ∧ 2 ≤ s_suf.length ∧
        p = text.take p.length ∧
        s_suf = text.drop (text.length - s_suf.length) ∧
        (∀ c ∈ m, c = '*') ∧ 1 ≤ m.length := by
  by_cases h4 : text.length ≤ 4
  · simp only [if_pos h4, mask_text, if_pos h4]
  · simp only [if_neg h4]
    have h5 : 5 ≤ text.length := by omega
    set v := max 2 (text.length / 8) with hv
    have hv2 : 2 ≤ v := le_max_left _ _
    have hvle : v * 2 < text.length := by
      rcases Nat.lt_or_ge (text.length / 8) 2 with hc | hc
      · have : v = 2 := by omega
        omega
      · have : v = text.length / 8 := by omega
        have h8 : text.length / 8 * 8 ≤ text.length := Nat.div_mul_le_self _ _
        omega
    have hmask : mask_text text =
        text.take v ++ List.replicate (text.length - v * 2) '*'
          ++ text.drop (text.length - v) := by
      unfold mask_text
      rw [if_neg h4]
    constructor
    · rw [hmask]
      simp only [List.length_append, List.length_take, List.length_replicate,
        List.length_drop]
      omega
    · refine ⟨text.take v, List.replicate (text.length - v * 2) '*',
        text.drop (text.length - v), hmask, ?_, ?_, ?_, ?_, ?_, ?_⟩
      · simp only [List.length_take]
        omega
      · simp only [List.length_drop]
        omega
      · simp only [List.length_take]
        congr 1
        omega
      · simp only [List.length_drop]
        congr 1
        omega
      · intro c hc
        exact List.eq_of_mem_replicate hc
      · simp only [List.length_replicate]
        omega

/-! ## `redact.py`: `_bbox_to_pixels` -/

/-- A Vision normalized bounding box (`CGRect`): origin at the bottom-left,
components as fractions of the image dimensions. -/
structure BBox where
  x : ℚ
  y : ℚ
  w : ℚ
  h : ℚ

/-- A pixel rectangle with top-left origin, as returned by `_bbox_to_pixels`. -/
structure PixelRect where
  x : ℤ
  y : ℤ
  w : ℤ
  h : ℤ
deriving DecidableEq

/-- `_bbox_to_pixels` from `redact.py`: convert a normalized bottom-left
box to a pixel top-left rectangle, grow it by `padding`, then clamp
`x, y` at 0 and `w, h` so the rectangle stays inside the image. -/
def bbox_to_pixels (bbox : BBox) (img_w img_h : ℤ) (padding : ℤ) : PixelRect :=
  let x := pyInt (bbox.x * img_w) - padding
  let y := pyInt ((1 - bbox.y - bbox.h) * img_h) - padding
  let w := pyInt (bbox.w * img_w) + padding * 2
  let h := pyInt (bbox.h * img_h) + padding * 2
  let x2 := max 0 x
  let y2 := max 0 y
  let w2 := min w (img_w - x2)
  let h2 := min h (img_h - y2)
  ⟨x2, y2, w2, h2⟩

/-- Claim C2: for a normalized box (components in 0–1), nonnegative image
dimensions and nonnegative padding, `_bbox_to_pixels` yields a rectangle
with `x, y, w, h ≥ 0`, `x + w ≤ img_w` and `y + h ≤ img_h`. -/
theorem bbox_to_pixels_clamped (bbox : BBox) (img_w img_h padding : ℤ)
    (hx0 : 0 ≤ bbox.x) (hx1 : bbox.x ≤ 1)
    (hy0 : 0 ≤ bbox.y) (hy1 : bbox.y ≤ 1)
    (hw0 : 0 ≤ bbox.w) (hw1 : bbox.w ≤ 1)
    (hh0 : 0 ≤ bbox.h) (hh1 : bbox.h ≤ 1)
    (hW : 0 ≤ img_w) (hH : 0 ≤ img_h) (hp : 0 ≤ padding) :
    let r := bbox_to_pixels bbox img_w img_h padding
    0 ≤ r.x ∧ 0 ≤ r.y ∧ 0 ≤ r.w ∧ 0 ≤ r.h ∧
      r.x + r.w ≤ img_w ∧ r.y + r.h ≤ img_h := by
  have hWq : (0 : ℚ) ≤ (img_w : ℚ) := by exact_mod_cast hW
  have hHq : (0 : ℚ) ≤ (img_h : ℚ) := by exact_mod_cast hH
  -- the unclamped x stays at most img_w, so img_w - x2 is nonnegative
  have hxle : max 0 (pyInt (bbox.x * img_w) - padding) ≤ img_w := by
    have h1 : bbox.x * img_w ≤ (img_w : ℚ) := by
      calc bbox.x * (img_w : ℚ) ≤ 1 * img_w := by
            exact mul_le_mul_of_nonneg_right hx1 hWq
        _ = img_w := one_mul _
    have h2 : pyInt (bbox.x * img_w) ≤ img_w := pyInt_le_of_le h1
    omega
  have hyle : max 0 (pyInt ((1 - bbox.y - bbox.h) * img_h) - padding) ≤ img_h := by
    have h1 : (1 - bbox.y - bbox.h) * img_h ≤ (img_h : ℚ) := by
      calc (1 - bbox.y - bbox.h) * (img_h : ℚ) ≤ 1 * img_h := by
            apply mul_le_mul_of_nonneg_right _ hHq
            linarith
        _ = img_h := one_mul _
    have h2 : pyInt ((1 - bbox.y - bbox.h) * img_h) ≤ img_h := pyInt_le_of_le h1
    omega
  have hwnn : 0 ≤ pyInt (bbox.w * img_w) + padding * 2 := by
    have := pyInt_nonneg (mul_nonneg hw0 hWq)
    omega
  have hhnn : 0 ≤ pyInt (bbox.h * img_h) + padding * 2 := by
    have := pyInt_nonneg (mul_nonneg hh0 hHq)
    omega
  simp only [bbox_to_pixels]
  refine ⟨le_max_left _ _, le_max_left _ _, ?_, ?_, ?_, ?_⟩
  · exact le_min hwnn (by omega)
  · exact le_min hhnn (by omega)
  · have := min_le_right (pyInt (bbox.w * img_w) + padding * 2)
      (img_w - max 0 (pyInt (bbox.x * img_w) - padding))
    omega
  · have := min_le_right (pyInt (bbox.h * img_h) + padding * 2)
      (img_h - max 0 (pyInt ((1 - bbox.y - bbox.h) * img_h) - padding))
    omega

/-- Concrete instance of claim C2: a centered half-size box in a 100×80
image with padding 3 maps to a rectangle inside the image. -/
theorem bbox_to_pixels_clamped_witness :
    let r := bbox_to_pixels ⟨1/4, 1/4, 1/2, 1/2⟩ 100 80 3
    0 ≤ r.x ∧ 0 ≤ r.y ∧ 0 ≤ r.w ∧ 0 ≤ r.h ∧
      r.x + r.w ≤ 100 ∧ r.y + r.h ≤ 80 :=
  bbox_to_pixels_clamped ⟨1/4, 1/4, 1/2, 1/2⟩ 100 80 3
    (by norm_num) (by norm_num) (by norm_num) (by norm_num)
    (by norm_num) (by norm_num) (by norm_num) (by norm_num)
    (by norm_num) (by norm_num) (by norm_num)

/-! ## `annotate.py`: coordinate mapping -/

/-- The screen-to-pixel click mapping of `annotate_click` (`rel_x`, `rel_y`):
subtract the window origin and multiply by the retina scale. -/
def annotate_click_pos (click_pos window_origin : ℚ × ℚ) (retina_scale : ℤ) :
    ℚ × ℚ :=
  ((click_pos.1 - window_origin.1) * retina_scale,
    (click_pos.2 - window_origin.2) * retina_scale)

/-- The pre-clamp target pixel point of `create_zoom_gif` (`target_x`,
`target_y` before the `max`/`min` lines). -/
def zoom_target_raw (click_pos window_origin : ℚ × ℚ) (retina_scale : ℤ) :
    ℚ × ℚ :=
  ((click_pos.1 - window_origin.1) * retina_scale,
    (click_pos.2 - window_origin.2) * retina_scale)

/-- Claim C7: both mapping sites compute exactly
`((click − origin) · scale)` with no clamping, and the two quoted examples
evaluate to (200, 200) and (40, 40). -/
theorem click_mapping_correct (click origin : ℚ × ℚ) (scale : ℤ)
    (hs : 1 ≤ scale) :
    annotate_click_pos click origin scale =
        ((click.1 - origin.1) * scale, (click.2 - origin.2) * scale) ∧
      zoom_target_raw click origin scale = annotate_click_pos click origin scale ∧
      annotate_click_pos (100, 100) (0, 0) 2 = (200, 200) ∧
      annotate_click_pos (50, 50) (10, 10) 1 = (40, 40) := by
  refine ⟨rfl, rfl, ?_, ?_⟩
  · simp only [annotate_click_pos]
    norm_num
  · simp only [annotate_click_pos]
    norm_num

/-- Concrete instance of claim C7 at scale 2. -/
theorem click_mapping_correct_witness :
    annotate_click_pos (3, 4) (1, 1) 2 = ((3 - 1) * 2, (4 - 1) * 2) ∧
      zoom_target_raw (3, 4) (1, 1) 2 = annotate_click_pos (3, 4) (1, 1) 2 ∧
      annotate_click_pos (100, 100) (0, 0) 2 = (200, 200) ∧
      annotate_click_pos (50, 50) (10, 10) 1 = (40, 40) :=
  click_mapping_correct (3, 4) (1, 1) 2 (by norm_num)

/-! ## `annotate.py`: `create_zoom_gif` frame generation

The per-frame geometry of `create_zoom_gif`. The ease curve
`(1 − cos(t·π)) / 2` is evaluated in floating point by the source, so it
enters the embedding as a function parameter `ease`; everything else —
the progress formula, the crop-window interpolation and clamping, and the
frame loop — is taken from the source. -/

/-- The progress denominator `max(num_frames - 1, 1)` of `create_zoom_gif`. -/
def zoom_denom (num_frames : ℕ) : ℕ := max (num_frames - 1) 1

/-- Per-frame progress of `create_zoom_gif`: `i / max(num_frames - 1, 1)`
for transition frames `i < num_frames`, and `1.0` for hold frames. -/
def zoom_progress (num_frames i : ℕ) : ℚ :=
  if i < num_frames then (i : ℚ) / (zoom_denom num_frames : ℚ) else 1

/-- One frame of the zoom animation: the integer crop box handed to
`img.crop` and whether the click marker is drawn on it. -/
structure ZoomFrame where
  left : ℤ
  top : ℤ
  right : ℤ
  bottom : ℤ
  marker : Bool

/-- The geometry of frame `i` of `create_zoom_gif`: progress, eased
progress, interpolated crop-window size, crop origin centered on the
target and clamped to the image, and the marker threshold `t_ease > 0.5`. -/
def zoom_frame (ease : ℚ → ℚ) (img_w img_h target_x target_y zoom_factor : ℚ)
    (num_frames i : ℕ) : ZoomFrame :=
  let t := zoom_progress num_frames i
  let t_ease := ease t
  let zoom_w := img_w / (1 + (zoom_factor - 1) * t_ease)
  let zoom_h := img_h / (1 + (zoom_factor - 1) * t_ease)
  let crop_x := target_x - zoom_w / 2
  let crop_y := target_y - zoom_h / 2
  let crop_x2 := max 0 (min crop_x (img_w - zoom_w))
  let crop_y2 := max 0 (min crop_y (img_h - zoom_h))
  { left := pyInt crop_x2
    top := pyInt crop_y2
    right := pyInt (crop_x2 + zoom_w)
    bottom := pyInt (crop_y2 + zoom_h)
    marker := decide (t_ease > 1 / 2) }

/-- The frame list built by the `for i in range(num_frames + hold_frames)`
loop of `create_zoom_gif`, before the GIF writer's optimization pass. -/
def zoom_frames (ease : ℚ → ℚ) (img_w img_h target_x target_y zoom_factor : ℚ)
    (num_frames hold_frames : ℕ) : List ZoomFrame :=
  (List.range (num_frames + hold_frames)).map
    (zoom_frame ease img_w img_h target_x target_y zoom_factor num_frames)

/-- Claim C8: `create_zoom_gif` generates exactly
`num_frames + hold_frames` frames before any optimization step. -/
theorem zoom_frames_count (ease : ℚ → ℚ)
    (img_w img_h target_x target_y zoom_factor : ℚ)
    (num_frames hold_frames : ℕ) (hn : 1 ≤ num_frames) :
    (zoom_frames ease img_w img_h target_x target_y zoom_factor
        num_frames hold_frames).length = num_frames + hold_frames := by
  simp [zoom_frames]

/-- Concrete instance of claim C8: `num_frames = 5, hold_frames = 2`
yields exactly 7 frames. -/
theorem zoom_frames_count_witness :
    (zoom_frames (fun t => t) 800 600 100 100 4 5 2).length = 5 + 2 :=
  zoom_frames_count (fun t => t) 800 600 100 100 4 5 2 (by norm_num)

/-- Claim C9: the progress denominator is `max(num_frames − 1, 1)` and is
always positive, so `num_frames = 1` causes no division by zero: its one
transition frame has progress 0 and every hold frame has progress 1. -/
theorem zoom_progress_safe (num_frames i : ℕ)
    (hn : 1 ≤ num_frames) (hi : 1 ≤ i) :
    0 < zoom_denom num_frames ∧
      zoom_progress 1 0 = 0 ∧ zoom_progress 1 i = 1 := by
  refine ⟨?_, ?_, ?_⟩
  · unfold zoom_denom
    omega
  · simp [zoom_progress]
  · have hni : ¬ i < 1 := by omega
    simp [zoom_progress, hni]

/-- Concrete instance of claim C9 at `num_frames = 1`, hold frame `i = 2`. -/
theorem zoom_progress_safe_witness :
    0 < zoom_denom 1 ∧ zoom_progress 1 0 = 0 ∧ zoom_progress 1 2 = 1 :=
  zoom_progress_safe 1 2 (by norm_num) (by norm_num)

/-! ## `redact.py`: `_apply_mosaic`

PIL images are modelled as a size plus a total pixel function; `crop`
reads out of a window (black outside the image, as PIL pads), `resize`
with `Image.NEAREST` samples the source at the pixel-center preimage, and
`paste` overwrites a window. Python's floor division `//` is `Int.fdiv`. -/

/-- A raster image: dimensions and a pixel lookup. -/
structure Img where
  w : ℤ
  h : ℤ
  px : ℤ → ℤ → ℕ

/-- `img.crop((l, t, r, b))`: the window as its own image, PIL padding
out-of-bounds reads with 0. -/
def crop (img : Img) (l t r b : ℤ) : Img where
  w := r - l
  h := b - t
  px := fun i j =>
    if 0 ≤ l + i ∧ l + i < img.w ∧ 0 ≤ t + j ∧ t + j < img.h then
      img.px (l + i) (t + j)
    else 0

/-- The source index sampled by PIL's nearest-neighbor filter for output
index `i`: the center `(i + 1/2) · src/dst` rounded down. -/
def nn_src (i dst src : ℤ) : ℤ := Int.fdiv ((2 * i + 1) * src) (2 * dst)

/-- `img.resize((W, H), Image.NEAREST)`. -/
def resize_nearest (img : Img) (W H : ℤ) : Img where
  w := W
  h := H
  px := fun i j => img.px (nn_src i W img.w) (nn_src j H img.h)

/-- `base.paste(patch, (x, y))`: overwrite the window at `(x, y)`. -/
def paste (base patch : Img) (x y : ℤ) : Img where
  w := base.w
  h := base.h
  px := fun i j =>
    if x ≤ i ∧ i < x + patch.w ∧ y ≤ j ∧ j < y + patch.h then
      patch.px (i - x) (j - y)
    else base.px i j

/-- A detected sensitive region: pixel rectangle, pattern name, and the
masked matched text kept for safe logging. -/
structure SensitiveRegion where
  x : ℤ
  y : ℤ
  w : ℤ
  h : ℤ
  pattern_name : String
  matched_text : String
deriving DecidableEq

/-- `_apply_mosaic` from `redact.py`: crop the region, downscale to
`max(1, w // block_size) × max(1, h // block_size)` with nearest-neighbor,
upscale back to `(w, h)` with nearest-neighbor, and paste over the
original region. -/
def apply_mosaic (img : Img) (region : SensitiveRegion) (block_size : ℤ) : Img :=
  let x := region.x
  let y := region.y
  let w := region.w
  let h := region.h
  let cropped := crop img x y (x + w) (y + h)
  let small_w := max 1 (Int.fdiv w block_size)
  let small_h := max 1 (Int.fdiv h block_size)
  let small := resize_nearest cropped small_w small_h
  let mosaic := resize_nearest small w h
  paste img mosaic x y

/-- Claim C6: for a region of positive size lying inside the image and any
`block_size ≥ 1`, `_apply_mosaic` keeps the image dimensions and leaves
every pixel strictly outside the target rectangle byte-identical. -/
theorem apply_mosaic_outside_unchanged (img : Img) (region : SensitiveRegion)
    (block_size : ℤ) (hb : 1 ≤ block_size)
    (hw : 0 < region.w) (hh : 0 < region.h)
    (hx : 0 ≤ region.x) (hy : 0 ≤ region.y)
    (hxw : region.x + region.w ≤ img.w) (hyh : region.y + region.h ≤ img.h)
    (i j : ℤ)
    (hout : i < region.x ∨ region.x + region.w ≤ i ∨
      j < region.y ∨ region.y + region.h ≤ j) :
    (apply_mosaic img region block_size).w = img.w ∧
      (apply_mosaic img region block_size).h = img.h ∧
      (apply_mosaic img region block_size).px i j = img.px i j := by
  refine ⟨rfl, rfl, ?_⟩
  show (if region.x ≤ i ∧ i < region.x + region.w ∧
      region.y ≤ j ∧ j < region.y + region.h then _ else img.px i j) = img.px i j
  rw [if_neg]
  rintro ⟨h1, h2, h3, h4⟩
  rcases hout with h | h | h | h <;> omega

/-- Concrete instance of claim C6: a 2×2 region at (1, 1) of a 4×4 image,
block size 1, checked at the outside pixel (0, 3). -/
theorem apply_mosaic_outside_unchanged_witness :
    (apply_mosaic ⟨4, 4, fun i j => (i + 2 * j).toNat⟩
        ⟨1, 1, 2, 2, "credit_card", "****"⟩ 1).w = 4 ∧
      (apply_mosaic ⟨4, 4, fun i j => (i + 2 * j).toNat⟩
        ⟨1, 1, 2, 2, "credit_card", "****"⟩ 1).h = 4 ∧
      (apply_mosaic ⟨4, 4, fun i j => (i + 2 * j).toNat⟩
        ⟨1, 1, 2, 2, "credit_card", "****"⟩ 1).px 0 3 =
        (⟨4, 4, fun i j => (i + 2 * j).toNat⟩ : Img).px 0 3 :=
  apply_mosaic_outside_unchanged ⟨4, 4, fun i j => (i + 2 * j).toNat⟩
    ⟨1, 1, 2, 2, "credit_card", "****"⟩ 1
    (by norm_num) (by norm_num) (by norm_num) (by norm_num) (by norm_num)
    (by norm_num) (by norm_num) 0 3 (by norm_num)

/-! ## `redact.py`: `_find_sensitive_regions`

The Vision OCR observation list and the `re` regex engine are external
collaborators: an observation carries its text, its normalized bounding
box and the sub-range lookup `boundingBoxForRange` (`none` models a `nil`
rect or a raised error, which the source swallows and answers with the
full observation box). The regex engine enters as `finditer`, giving the
matches of a pattern in a text in order, and `compiles`, telling which
pattern strings compile. The loop structure, the Luhn guard, the bbox
fallback, the positive-size filter and the masking are from the source. -/

/-- One OCR observation: recognized text, normalized bounding box, and the
sub-range bounding-box lookup (`start`, `length` ↦ optional box). -/
structure OcrObs where
  text : String
  bbox : BBox
  subBox : ℕ → ℕ → Option BBox

/-- One regex match: the matched text and its span in the observation text
as `(start, length)`, the range handed to `boundingBoxForRange`. -/
structure RMatch where
  matched : String
  start : ℕ
  len : ℕ

/-- `RedactConfig` from `config.py`: the fields `_find_sensitive_regions`
and `redact_image` read. -/
structure RedactConfig where
  enabled : Bool
  patterns : List (String × String)
  block_size : ℤ
  padding : ℤ
  disabled_patterns : List String

/-- The active-pattern table of `_find_sensitive_regions`: configured
patterns that are not disabled and whose regex compiles. -/
def active_patterns (compiles : String → Bool) (cfg : RedactConfig) :
    List (String × String) :=
  cfg.patterns.filter fun np =>
    !(cfg.disabled_patterns.contains np.1) && compiles np.2

/-- The body of the innermost loop of `_find_sensitive_regions`: drop a
`credit_card` match failing the Luhn check, look up the sub-range box
falling back to the observation box, convert to pixels, and keep the
region when both dimensions are positive. -/
def region_of_match (obs : OcrObs) (img_w img_h padding : ℤ) (name : String)
    (m : RMatch) : Option SensitiveRegion :=
  if name == "credit_card" && !(luhn_check m.matched.data) then none
  else
    let bbox := (obs.subBox m.start m.len).getD obs.bbox
    let r := bbox_to_pixels bbox img_w img_h padding
    if 0 < r.w ∧ 0 < r.h then
      some ⟨r.x, r.y, r.w, r.h, name, mask_text_str m.matched⟩
    else none

/-- `_find_sensitive_regions` from `redact.py`: for every observation,
every active pattern and every match, the region the loop body emits. -/
def find_sensitive_regions (finditer : String → String → List RMatch)
    (compiles : String → Bool) (ocr : List OcrObs) (img_w img_h : ℤ)
    (cfg : RedactConfig) : List SensitiveRegion :=
  ocr.flatMap fun obs =>
    (active_patterns compiles cfg).flatMap fun np =>
      (finditer np.2 obs.text).filterMap fun m =>
        region_of_match obs img_w img_h cfg.padding np.1 m

theorem region_of_match_some {obs : OcrObs} {img_w img_h padding : ℤ}
    {name : String} {m : RMatch} {r : SensitiveRegion}
    (h : region_of_match obs img_w img_h padding name m = some r) :
    r.pattern_name = name ∧ r.matched_text = mask_text_str m.matched ∧
      (name = "credit_card" → luhn_check m.matched.data = true) := by
  unfold region_of_match at h
  by_cases hg : (name == "credit_card" && !(luhn_check m.matched.data)) = true
  · rw [if_pos hg] at h
    exact absurd h (by simp)
  · rw [if_neg hg] at h
    simp only [Bool.and_eq_true, Bool.not_eq_true', beq_iff_eq, not_and] at hg
    dsimp only at h
    split at h
    · cases h
      refine ⟨rfl, rfl, ?_⟩
      intro hcc
      have := hg hcc
      simpa using this
    · exact absurd h (by simp)

theorem region_of_match_other {obs : OcrObs} {img_w img_h padding : ℤ}
    {name : String} {m : RMatch} (hname : name ≠ "credit_card")
    (hw : 0 < (bbox_to_pixels ((obs.subBox m.start m.len).getD obs.bbox)
      img_w img_h padding).w)
    (hh : 0 < (bbox_to_pixels ((obs.subBox m.start m.len).getD obs.bbox)
      img_w img_h padding).h) :
    region_of_match obs img_w img_h padding name m =
      some ⟨(bbox_to_pixels ((obs.subBox m.start m.len).getD obs.bbox)
          img_w img_h padding).x,
        (bbox_to_pixels ((obs.subBox m.start m.len).getD obs.bbox)
          img_w img_h padding).y,
        (bbox_to_pixels ((obs.subBox m.start m.len).getD obs.bbox)
          img_w img_h padding).w,
        (bbox_to_pixels ((obs.subBox m.start m.len).getD obs.bbox)
          img_w img_h padding).h,
        name, mask_text_str m.matched⟩ := by
  unfold region_of_match
  rw [if_neg (by simp [hname]), if_pos ⟨hw, hh⟩]

/-- Claim C4: every region `_find_sensitive_regions` emits under the name
`credit_card` comes from a match whose raw text passes the Luhn check (its
stored text is the mask of that raw text), and a match of any other active
pattern is emitted unconditionally whenever its mapped rectangle has
positive size — no text-based validation is applied to it. -/
theorem find_regions_validator (finditer : String → String → List RMatch)
    (compiles : String → Bool) (ocr : List OcrObs) (img_w img_h : ℤ)
    (cfg : RedactConfig) :
    (∀ r ∈ find_sensitive_regions finditer compiles ocr img_w img_h cfg,
        r.pattern_name = "credit_card" →
          ∃ raw : String, luhn_check raw.data = true ∧
            r.matched_text = mask_text_str raw) ∧
      (∀ obs ∈ ocr, ∀ np ∈ active_patterns compiles cfg,
        np.1 ≠ "credit_card" → ∀ m ∈ finditer np.2 obs.text,
          ∀ rect : PixelRect,
            rect = bbox_to_pixels ((obs.subBox m.start m.len).getD obs.bbox)
              img_w img_h cfg.padding →
            0 < rect.w → 0 < rect.h →
            (⟨rect.x, rect.y, rect.w, rect.h, np.1, mask_text_str m.matched⟩ :
                SensitiveRegion) ∈
              find_sensitive_regions finditer compiles ocr img_w img_h cfg) := by
  constructor
  · intro r hr hcc
    simp only [find_sensitive_regions, List.mem_flatMap, List.mem_filterMap] at hr
    obtain ⟨obs, _, np, _, m, _, hsome⟩ := hr
    obtain ⟨hpat, htext, hluhn⟩ := region_of_match_some hsome
    exact ⟨m.matched, hluhn (hpat ▸ hcc), htext⟩
  · intro obs hobs np hnp hname m hm rect hrect hw hh
    simp only [find_sensitive_regions, List.mem_flatMap, List.mem_filterMap]
    refine ⟨obs, hobs, np, hnp, m, hm, ?_⟩
    subst hrect
    exact region_of_match_other hname hw hh

/-! ## `redact.py`: `redact_image`

The OCR engine and the image file system are external collaborators:
`ocr_image` models `_ocr_image` (observations plus image dimensions) and
`load` models `Image.open`. The result's third component records the save
effect — `none` when no file is written, `some (path, image)` for the
image written where. -/

/-- `redact_image` from `redact.py`: no-op when disabled, when OCR yields
nothing, or when no region is found; otherwise mosaic every region and
save to `output_path or image_path`. -/
def redact_image (ocr_image : String → List OcrObs × ℤ × ℤ)
    (load : String → Img) (finditer : String → String → List RMatch)
    (compiles : String → Bool) (image_path : String) (cfg : RedactConfig)
    (output_path : Option String) :
    String × List SensitiveRegion × Option (String × Img) :=
  if !cfg.enabled then (output_path.getD image_path, [], none)
  else
    let res := ocr_image image_path
    let ocr := res.1
    let img_w := res.2.1
    let img_h := res.2.2
    if ocr.isEmpty then (output_path.getD image_path, [], none)
    else
      let regions := find_sensitive_regions finditer compiles ocr img_w img_h cfg
      if regions.isEmpty then (output_path.getD image_path, [], none)
      else
        let img := regions.foldl
          (fun im r => apply_mosaic im r cfg.block_size) (load image_path)
        let save_path := output_path.getD image_path
        (save_path, regions, some (save_path, img))

/-- Claim C3 as stated is false: with redaction disabled and an output
path supplied, `redact_image` returns the supplied output path, not the
original image path. -/
theorem redact_image_disabled_cex :
    (redact_image (fun _ => ([], 0, 0)) (fun _ => ⟨0, 0, fun _ _ => 0⟩)
        (fun _ _ => []) (fun _ => true) "shot.png"
        ⟨false, [], 10, 6, []⟩ (some "out.png")).1 = "out.png" ∧
      "out.png" ≠ "shot.png" := by
  exact ⟨rfl, by decide⟩

/-- Claim C3, amended: with `enabled = False`, `redact_image` returns the
output path when one is supplied and the original image path otherwise,
always with an empty region list, and writes no image at all. -/
theorem redact_image_disabled (ocr_image : String → List OcrObs × ℤ × ℤ)
    (load : String → Img) (finditer : String → String → List RMatch)
    (compiles : String → Bool) (image_path : String) (cfg : RedactConfig)
    (output_path : Option String) (h : cfg.enabled = false) :
    redact_image ocr_image load finditer compiles image_path cfg output_path =
      (output_path.getD image_path, [], none) := by
  unfold redact_image
  rw [h]
  rfl

/-- Concrete instance of the amended claim C3: disabled config, no output
path — the original path comes back with no regions and no write. -/
theorem redact_image_disabled_witness :
    redact_image (fun _ => ([], 0, 0)) (fun _ => ⟨0, 0, fun _ _ => 0⟩)
        (fun _ _ => []) (fun _ => true) "shot.png"
        ⟨false, [], 10, 6, []⟩ none = ("shot.png", [], none) :=
  redact_image_disabled (fun _ => ([], 0, 0)) (fun _ => ⟨0, 0, fun _ _ => 0⟩)
    (fun _ _ => []) (fun _ => true) "shot.png" ⟨false, [], 10, 6, []⟩ none rfl

end AutoCapture
